import Mathlib

/-!
Verification of the podcast founder-extraction engine
(`src/extract/extract_founder.py`, `src/extract/founder_types.py`).

Python strings are modelled as `List Char` (a Python `str` is a sequence of
code points), so that every string operation used by the code (splitting on a
separator, joining, stripping, slicing, lexicographic comparison) is an
executable structural recursion.  Machinery that is external to the program
(the LLM completion service, the tiktoken tokenizer, `json.loads`) is passed
in as an explicit oracle parameter, exactly at the boundary where the source
calls it.
-/

namespace Podcaster

/-- Python `str` is a sequence of code points. -/
abbrev Str := List Char

/-- Prepend a character to the first segment of a split result. -/
def consHead (c : Char) : List Str → List Str
  | [] => [[c]]
  | seg :: segs => (c :: seg) :: segs

/-- Model of `s.split("\n\n")` for the paragraph separator used by `chunk_transcript`:
split on the leftmost non-overlapping occurrences of the two-character
separator `"\n\n"`. -/
def splitParasChars : Str → List Str
  | [] => [[]]
  | '\n' :: '\n' :: rest => [] :: splitParasChars rest
  | c :: rest => consHead c (splitParasChars rest)

/-- Model of `s.split("\n")`: split on each occurrence of the one-character separator
`"\n"`, as used by the code-fence sanitizer in `extract_with_retries`. -/
def splitLinesChars : Str → List Str
  | [] => [[]]
  | '\n' :: rest => [] :: splitLinesChars rest
  | c :: rest => consHead c (splitLinesChars rest)

/-- The characters removed by Python `str.strip()` (the ASCII whitespace
forms that can occur in a completion body). -/
def pyIsSpace (c : Char) : Bool :=
  c = ' ' || c = '\t' || c = '\n' || c = '\r' || c = '\x0b' || c = '\x0c'

/-- Python `str.strip()`: drop whitespace from both ends. -/
def pyStrip (s : Str) : Str :=
  ((s.dropWhile pyIsSpace).reverse.dropWhile pyIsSpace).reverse

/-- Python `a <= b` on strings: lexicographic comparison by code point. -/
def charListLe : Str → Str → Bool
  | [], _ => true
  | _ :: _, [] => false
  | a :: as, b :: bs => if a < b then true else if a = b then charListLe as bs else false

/-- The `DataType` enum (`founder_types.py`). -/
inductive DataType where
  | FACTUAL
  | SPECULATIVE
  | INFERRED
deriving DecidableEq

/-- The `EventType` enum (`founder_types.py`). -/
inductive EventType where
  | FOUNDING
  | PIVOT
  | CRISIS
  | SUCCESS
  | OTHER
deriving DecidableEq

/-- The `TraitCategory` enum (`founder_types.py`). -/
inductive TraitCategory where
  | TRAIT
  | SKILL
deriving DecidableEq

/-- The `TraitOrigin` enum (`founder_types.py`). -/
inductive TraitOrigin where
  | INNATE
  | DEVELOPED
deriving DecidableEq

/-- Lookup `DataType[name]`: exact, case-sensitive member lookup; an unknown name
raises `KeyError`, modelled as `none`. -/
def DataType.fromName (s : Str) : Option DataType :=
  if s = "FACTUAL".data then some .FACTUAL
  else if s = "SPECULATIVE".data then some .SPECULATIVE
  else if s = "INFERRED".data then some .INFERRED
  else none

/-- Lookup `EventType[name]`: exact, case-sensitive member lookup. -/
def EventType.fromName (s : Str) : Option EventType :=
  if s = "FOUNDING".data then some .FOUNDING
  else if s = "PIVOT".data then some .PIVOT
  else if s = "CRISIS".data then some .CRISIS
  else if s = "SUCCESS".data then some .SUCCESS
  else if s = "OTHER".data then some .OTHER
  else none

/-- Lookup `TraitCategory[name]`: exact, case-sensitive member lookup. -/
def TraitCategory.fromName (s : Str) : Option TraitCategory :=
  if s = "TRAIT".data then some .TRAIT
  else if s = "SKILL".data then some .SKILL
  else none

/-- Lookup `TraitOrigin[name]`: exact, case-sensitive member lookup. -/
def TraitOrigin.fromName (s : Str) : Option TraitOrigin :=
  if s = "INNATE".data then some .INNATE
  else if s = "DEVELOPED".data then some .DEVELOPED
  else none

/-- A Python sequence value that is either a `list` or a `tuple` of the same
elements; `TimelineEvent.__post_init__` converts the former into the latter,
and only the latter is hashable. -/
inductive PySeq (α : Type) where
  | list (xs : List α)
  | tuple (xs : List α)
deriving DecidableEq

/-- Conversion `tuple(x)` on a `list` or `tuple` value. -/
def PySeq.toTupleSeq {α : Type} : PySeq α → PySeq α
  | .list xs => .tuple xs
  | .tuple xs => .tuple xs

/-- The element list of a `tuple`; `none` on a `list` (unhashable). -/
def PySeq.tupleData? {α : Type} : PySeq α → Option (List α)
  | .list _ => none
  | .tuple xs => some xs

/-- The `TraitChange` record (frozen dataclass, `founder_types.py` lines 52-58). -/
structure TraitChange where
  trait : Str
  change : Str
deriving DecidableEq

/-- The `TimelineEvent` record (frozen dataclass, `founder_types.py` lines 60-93).
Dataclass equality compares the tuple of all ten fields; `confidence` is the
JSON number, modelled as a rational. -/
structure TimelineEvent where
  date : Str
  event_type : EventType
  description : Str
  emotional_context : Option Str
  trait_changes : PySeq TraitChange
  alternative_paths : PySeq Str
  external_triggers : PySeq Str
  source : Str
  confidence : ℚ
  data_type : DataType
deriving DecidableEq

/-- Model of `TimelineEvent.__post_init__`: every `list`-valued sequence field is
replaced by the corresponding `tuple`. -/
def TimelineEvent.postInit (e : TimelineEvent) : TimelineEvent :=
  { e with
    trait_changes := e.trait_changes.toTupleSeq
    alternative_paths := e.alternative_paths.toTupleSeq
    external_triggers := e.external_triggers.toTupleSeq }

/-- Constructing a `TimelineEvent`: the dataclass `__init__` followed by
`__post_init__`. -/
def mkTimelineEvent (date : Str) (event_type : EventType) (description : Str)
    (emotional_context : Option Str) (trait_changes : PySeq TraitChange)
    (alternative_paths : PySeq Str) (external_triggers : PySeq Str)
    (source : Str) (confidence : ℚ) (data_type : DataType) : TimelineEvent :=
  TimelineEvent.postInit
    ⟨date, event_type, description, emotional_context, trait_changes,
     alternative_paths, external_triggers, source, confidence, data_type⟩

/-- Model of `TimelineEvent.__hash__`: Python hashes the tuple of all ten fields; it is
defined exactly when every sequence-valued field is a hashable `tuple`, and
then it is a function of that field tuple.  We model the hash by its key:
the ten-field tuple itself (`none` when Python would raise `TypeError`). -/
def TimelineEvent.pyHashKey (e : TimelineEvent) :
    Option (Str × EventType × Str × Option Str × List TraitChange ×
            List Str × List Str × Str × ℚ × DataType) := do
  let tcs ← e.trait_changes.tupleData?
  let aps ← e.alternative_paths.tupleData?
  let ets ← e.external_triggers.tupleData?
  pure (e.date, e.event_type, e.description, e.emotional_context, tcs,
        aps, ets, e.source, e.confidence, e.data_type)

instance {ε α : Type} [DecidableEq ε] [DecidableEq α] : DecidableEq (Except ε α) :=
  fun x y =>
    match x, y with
    | .error a, .error b =>
      if h : a = b then .isTrue (by rw [h]) else .isFalse (by intro hc; cases hc; exact h rfl)
    | .error _, .ok _ => .isFalse (by intro hc; cases hc)
    | .ok _, .error _ => .isFalse (by intro hc; cases hc)
    | .ok a, .ok b =>
      if h : a = b then .isTrue (by rw [h]) else .isFalse (by intro hc; cases hc; exact h rfl)

/-- The `Belief` dataclass (`founder_types.py` lines 127-133). -/
structure Belief where
  belief : Str
  rationale : Option Str
  source : Str
  confidence : ℚ
  data_type : DataType
deriving DecidableEq

/-- The `Example` dataclass (`founder_types.py` lines 95-98). -/
structure PyExample where
  description : Str
  source : Option Str
deriving DecidableEq

/-- The `TraitEvolution` dataclass (`founder_types.py` lines 100-104). -/
structure TraitEvolution where
  period : Str
  change : Str
  trigger : Option Str
deriving DecidableEq

/-- The `BlindSpot` dataclass (`founder_types.py` lines 106-112). -/
structure BlindSpot where
  description : Str
  overcome_strategy : Option Str
  source : Str
  confidence : ℚ
  data_type : DataType
deriving DecidableEq

/-- The `Trait` dataclass (`founder_types.py` lines 114-125). -/
structure Trait where
  trait : Str
  category : TraitCategory
  origin : TraitOrigin
  description : Str
  examples : List PyExample
  evolution : List TraitEvolution
  blind_spots : List BlindSpot
  source : Str
  confidence : ℚ
  data_type : DataType
deriving DecidableEq

/-!
Raw JSON records, as each facet mapper reads them.  A raw record element of a
facet response array is a JSON object; a required key that is absent raises
`KeyError` (modelled by an `Option` field being `none`), and `dict.get`
reads on optional keys never raise.
-/

/-- A raw element of the `"trait_changes"` array of a raw timeline event;
`TraitChange(**tc)` requires both keys. -/
structure RawTraitChange where
  trait : Option Str
  change : Option Str
deriving DecidableEq

/-- A raw element of the `"events"` array of a timeline response. -/
structure RawTimelineEvent where
  date : Option Str
  event_type : Option Str
  description : Option Str
  emotional_context : Option Str
  trait_changes : Option (List RawTraitChange)
  alternative_paths : Option (List Str)
  external_triggers : Option (List Str)
  source : Option Str
  confidence : Option ℚ
  data_type : Option Str
deriving DecidableEq

/-- A raw element of the `"beliefs"` array of a beliefs response. -/
structure RawBelief where
  belief : Option Str
  rationale : Option Str
  source : Option Str
  confidence : Option ℚ
  data_type : Option Str
deriving DecidableEq

/-- A raw element of an `"examples"` array; `Example(**ex)` requires
`description`. -/
structure RawExample where
  description : Option Str
  source : Option Str
deriving DecidableEq

/-- A raw element of an `"evolution"` array; `TraitEvolution(**ev)` requires
`period` and `change`. -/
structure RawTraitEvolution where
  period : Option Str
  change : Option Str
  trigger : Option Str
deriving DecidableEq

/-- A raw element of a `"blind_spots"` array; `BlindSpot(**bs)` requires
`description`. -/
structure RawBlindSpot where
  description : Option Str
  overcome_strategy : Option Str
  source : Option Str
  confidence : Option ℚ
  data_type : Option Str
deriving DecidableEq

/-- A raw element of the `"traits"` array of a traits response. -/
structure RawTrait where
  trait : Option Str
  category : Option Str
  origin : Option Str
  description : Option Str
  examples : Option (List RawExample)
  evolution : Option (List RawTraitEvolution)
  blind_spots : Option (List RawBlindSpot)
  source : Option Str
  confidence : Option ℚ
  data_type : Option Str
deriving DecidableEq

/-- Map a parser over a list, failing as soon as one element fails (the
semantics of a Python comprehension of fallible constructors). -/
def optionMapList {α β : Type} (f : α → Option β) : List α → Option (List β)
  | [] => some []
  | a :: as => do
    let b ← f a
    let bs ← optionMapList f as
    pure (b :: bs)

/-- Model of `TraitChange(**tc)`: both keys required. -/
def parseTraitChange (r : RawTraitChange) : Option TraitChange := do
  let t ← r.trait
  let c ← r.change
  pure ⟨t, c⟩

/-- Mapping one raw timeline event into a `TimelineEvent`
(`extract_timeline`, lines 236-251): the three sequence fields are read with
an empty-list default and converted by `tuple(...)`; `date`, `description`,
`source` and `confidence` are required; the two enums are looked up by exact
name; any failure raises inside the per-event `try`. -/
def parseTimelineEvent (r : RawTimelineEvent) : Option TimelineEvent := do
  let tcs ← optionMapList parseTraitChange (r.trait_changes.getD [])
  let aps := r.alternative_paths.getD []
  let ets := r.external_triggers.getD []
  let d ← r.date
  let etName ← r.event_type
  let et ← EventType.fromName etName
  let desc ← r.description
  let src ← r.source
  let conf ← r.confidence
  let dtName ← r.data_type
  let dt ← DataType.fromName dtName
  pure (mkTimelineEvent d et desc r.emotional_context (.tuple tcs)
        (.tuple aps) (.tuple ets) src conf dt)

/-- The validation loop of `extract_timeline` (lines 232-256): each raw
event is mapped inside its own `try`; a failing event is skipped. -/
def extract_timeline_events : List RawTimelineEvent → List TimelineEvent
  | [] => []
  | r :: rs =>
    match parseTimelineEvent r with
    | some e => e :: extract_timeline_events rs
    | none => extract_timeline_events rs

/-- Mapping one raw belief into a `Belief` (`extract_beliefs`, lines
358-364): `belief`, `source`, `confidence` and the `data_type` enum are
required; `rationale` is read with `dict.get`. -/
def parseBelief (r : RawBelief) : Option Belief := do
  let b ← r.belief
  let src ← r.source
  let conf ← r.confidence
  let dtName ← r.data_type
  let dt ← DataType.fromName dtName
  pure ⟨b, r.rationale, src, conf, dt⟩

/-- The per-element loop of `extract_beliefs`: each element is mapped inside
its own `try`; a failing element is skipped. -/
def beliefsLoop : List RawBelief → List Belief
  | [] => []
  | r :: rs =>
    match parseBelief r with
    | some b => b :: beliefsLoop rs
    | none => beliefsLoop rs

/-- The validation stage of `extract_beliefs` (lines 353-369): the raw array
is read with `result.get("beliefs", [])` and each element is mapped by
`beliefsLoop` under per-record fault isolation. -/
def extract_beliefs : Option (List RawBelief) → List Belief :=
  fun res => beliefsLoop (res.getD [])

/-- Mapping one raw trait into a `Trait` (`extract_traits`, lines 303-314). -/
def parseTrait (r : RawTrait) : Option Trait := do
  let t ← r.trait
  let catName ← r.category
  let cat ← TraitCategory.fromName catName
  let orName ← r.origin
  let orig ← TraitOrigin.fromName orName
  let desc ← r.description
  let exs ← optionMapList
    (fun (ex : RawExample) => do pure (⟨← ex.description, ex.source⟩ : PyExample))
    (r.examples.getD [])
  let evs ← optionMapList
    (fun (ev : RawTraitEvolution) => do
      pure (⟨← ev.period, ← ev.change, ev.trigger⟩ : TraitEvolution))
    (r.evolution.getD [])
  let bss ← optionMapList
    (fun (bs : RawBlindSpot) => do
      let d ← bs.description
      let s ← bs.source
      let c ← bs.confidence
      let dtn ← bs.data_type
      let dt ← DataType.fromName dtn
      pure (⟨d, bs.overcome_strategy, s, c, dt⟩ : BlindSpot))
    (r.blind_spots.getD [])
  let src ← r.source
  let conf ← r.confidence
  let dtName ← r.data_type
  let dt ← DataType.fromName dtName
  pure ⟨t, cat, orig, desc, exs, evs, bss, src, conf, dt⟩

/-- Failure of a facet mapping stage. -/
inductive FacetErr where
  | keyMissing
  | recordFailed
deriving DecidableEq

/-- The per-element loop of `extract_traits`: unlike every other facet, it
has no per-record `try`, so the first failing element aborts the facet. -/
def traitsLoop : List RawTrait → Except FacetErr (List Trait)
  | [] => .ok []
  | r :: rs =>
    match parseTrait r with
    | some t =>
      match traitsLoop rs with
      | .ok ts => .ok (t :: ts)
      | .error e => .error e
    | none => .error .recordFailed

/-- The validation stage of `extract_traits` (lines 299-316): the raw array
is read with `result["traits"]` (a `KeyError` if absent), and the mapping
loop has no per-record error boundary. -/
def extract_traits : Option (List RawTrait) → Except FacetErr (List Trait)
  | none => .error .keyMissing
  | some rs => traitsLoop rs

/-!
The chunker (`chunk_transcript`, lines 29-51).  The tokenizer
`count_tokens` is an external collaborator and is passed in as an oracle
`ct : Str → Nat`.
-/

/-- The accumulation loop of `chunk_transcript`: state is the remaining
paragraphs, the running `current_chunk` and its accumulated `current_tokens`;
a close emits `"\n\n".join(current_chunk)`; at the end a non-empty
`current_chunk` is emitted. -/
def chunkTranscriptAux (ct : Str → Nat) (maxTokens : Nat) :
    List Str → List Str → Nat → List Str
  | [], current, _ =>
    if current = [] then [] else [List.intercalate "\n\n".data current]
  | p :: ps, current, tok =>
    if tok + ct p > maxTokens then
      List.intercalate "\n\n".data current :: chunkTranscriptAux ct maxTokens ps [p] (ct p)
    else
      chunkTranscriptAux ct maxTokens ps (current ++ [p]) (tok + ct p)

/-- Model of `chunk_transcript(transcript, max_tokens)`: split into paragraphs on
`"\n\n"` and run the accumulation loop from an empty chunk. -/
def chunk_transcript (ct : Str → Nat) (transcript : Str) (maxTokens : Nat) : List Str :=
  chunkTranscriptAux ct maxTokens (splitParasChars transcript) [] 0

/-- The same loop, recorded as the underlying groups of whole paragraphs
(each emitted chunk is the `"\n\n"`-join of one group). -/
def chunkGroupsAux (ct : Str → Nat) (maxTokens : Nat) :
    List Str → List Str → Nat → List (List Str)
  | [], current, _ => if current = [] then [] else [current]
  | p :: ps, current, tok =>
    if tok + ct p > maxTokens then
      current :: chunkGroupsAux ct maxTokens ps [p] (ct p)
    else
      chunkGroupsAux ct maxTokens ps (current ++ [p]) (tok + ct p)

/-- The paragraph groups underlying `chunk_transcript`. -/
def chunkGroups (ct : Str → Nat) (transcript : Str) (maxTokens : Nat) : List (List Str) :=
  chunkGroupsAux ct maxTokens (splitParasChars transcript) [] 0

/-- The first paragraph of a transcript (the paragraph list is never
empty). -/
def firstPara (transcript : Str) : Str := (splitParasChars transcript).headD []

/-!
The timeline merger (`extract_founder_data`, line 974):
`sorted(set(all_timeline_events), key=lambda x: x.date)`.
`set` semantics is modelled by `List.dedup` (full-record equality), and the
stable `sorted` by the stable `List.insertionSort` with the key comparison
`charListLe` on `date`.  CPython leaves the iteration order of a `set`
unspecified, so `List.dedup` is ONE admissible duplicate-free enumeration,
a determinization the program does not promise.  Accordingly, about the
output sequence we assert only statements that are robust across every
admissible enumeration: its sortedness, its elements, permutation-level
equalities, and exact sequence equalities only under pairwise-distinct
dates (where the tie order the enumeration would fix cannot matter); the
tie-order dependence itself is exhibited by the C3 counterexample.
-/

/-- The sort relation of the merge step: `key=lambda x: x.date` under
Python string `<=`. -/
def dateLe (a b : TimelineEvent) : Prop := charListLe a.date b.date = true

instance : DecidableRel dateLe :=
  fun a b => instDecidableEqBool (charListLe a.date b.date) true

/-- The merge step applied to the concatenated per-chunk events. -/
def mergeTimeline (events : List TimelineEvent) : List TimelineEvent :=
  List.insertionSort dateLe events.dedup

/-- A sample event with the given date and description (all other fields
fixed), used to instantiate the merge-step theorems. -/
def sampleEvent (date desc : Str) : TimelineEvent :=
  mkTimelineEvent date .FOUNDING desc none (.tuple []) (.tuple []) (.tuple [])
    "s".data 1 .FACTUAL

/-!
The completion client (`extract_with_retries`, lines 53-87; the async
variant, lines 89-123, has the identical retry/sanitize pipeline).  The
completion service is an oracle `call : Nat → Except Str Str` giving, for
each attempt, either a transport/service failure (the exception message) or
the raw response body; `json.loads` is an oracle `decode : Str → Option J`.
-/

/-- The failure that one attempt of the completion client can raise. -/
inductive PyErr where
  | transport (msg : Str)
  | emptyResponse
  | jsonDecode (content : Str)
deriving DecidableEq

/-- The code-fence sanitizer (lines 78-79):
`"\n".join(content.split("\n")[1:-1])`. -/
def sanitizeFence (content : Str) : Str :=
  List.intercalate "\n".data (((splitLinesChars content).drop 1).dropLast)

/-- The sanitization applied to a non-empty stripped body (lines 78-79):
strip the fence only when the body starts with a backquote fence marker. -/
def sanitizedContent (content : Str) : Str :=
  if "```".data.isPrefixOf content then sanitizeFence content else content

/-- One attempt of the completion client (the `try` body, lines 59-81):
call the service, strip the body, reject an empty body, sanitize, decode. -/
def attemptOutcome {J : Type} (decode : Str → Option J)
    (call : Nat → Except Str Str) (i : Nat) : Except PyErr J :=
  match call i with
  | .error m => .error (.transport m)
  | .ok raw =>
    let content := pyStrip raw
    if content = [] then .error .emptyResponse
    else
      match decode (sanitizedContent content) with
      | some j => .ok j
      | none => .error (.jsonDecode (sanitizedContent content))

/-- The retry loop (lines 57-87), also counting the attempts actually made:
a success returns at once; a failure on the last attempt (`attempt ==
max_retries - 1`) re-raises it; otherwise the next attempt runs.  With a
zero budget the Python loop body never runs and the function falls through
returning `None`, modelled by `none`. -/
def retryLoop {J : Type} (decode : Str → Option J) (call : Nat → Except Str Str) :
    Nat → Nat → Nat × Option (Except PyErr J)
  | _, 0 => (0, none)
  | i, fuel + 1 =>
    match attemptOutcome decode call i with
    | .ok j => (1, some (.ok j))
    | .error e =>
      if fuel = 0 then (1, some (.error e))
      else
        let r := retryLoop decode call (i + 1) fuel
        (r.1 + 1, r.2)

/-- Model of `extract_with_retries(prompt, max_retries=3)`, as the pair of the number
of attempts consumed and the outcome. -/
def extract_with_retries {J : Type} (decode : Str → Option J)
    (call : Nat → Except Str Str) (maxRetries : Nat := 3) :
    Nat × Option (Except PyErr J) :=
  retryLoop decode call 0 maxRetries

/-!
The concurrent fan-out (`extract_all_components`, lines 125-145).  Each of
the ten tasks is `extract_with_retries_async(<extractor>.__doc__, <name>)`:
the prompt passed to the completion client is the extractor function's
docstring, and the `transcript` parameter of `extract_all_components` is
never read.
-/

/-- Docstring of `extract_traits`. -/
def extractTraitsDoc : Str := "Extract personality traits and skills".data

/-- Docstring of `extract_beliefs`. -/
def extractBeliefsDoc : Str := "Extract beliefs and rationales".data

/-- Docstring of `extract_philosophies`. -/
def extractPhilosophiesDoc : Str := "Extract philosophies and principles".data

/-- Docstring of `extract_failures`. -/
def extractFailuresDoc : Str := "Extract failures and lessons learned".data

/-- Docstring of `extract_key_decisions`. -/
def extractKeyDecisionsDoc : Str := "Extract key decisions and their impacts".data

/-- Docstring of `extract_mentors_and_network`. -/
def extractMentorsDoc : Str := "Extract mentors and network connections".data

/-- Docstring of `extract_habits`. -/
def extractHabitsDoc : Str := "Extract daily habits and routines".data

/-- Docstring of `extract_unique_approaches`. -/
def extractApproachesDoc : Str := "Extract unique approaches and strategies".data

/-- Docstring of `extract_anecdotes`. -/
def extractAnecdotesDoc : Str := "Extract anecdotes and stories".data

/-- Docstring of `extract_emotional_intelligence`. -/
def extractEmotionalDoc : Str := "Extract emotional intelligence aspects".data

/-- The instruction header both clients prepend to every prompt (lines 64
and 100). -/
def jsonOnlyHeader : Str :=
  "You must respond with pure JSON only, no markdown, no explanations, no code blocks.\n\n".data

/-- The message content of one completion request for a given prompt. -/
def requestContent (prompt : Str) : Str := jsonOnlyHeader ++ prompt

/-- The task list of `extract_all_components(transcript)` (lines 127-138):
each pair is the prompt handed to `extract_with_retries_async` and the
`extraction_type` tag.  The `transcript` argument is unused by the source. -/
def fanOutTasks (transcript : Str) : List (Str × Str) :=
  [(extractTraitsDoc, "traits".data),
   (extractBeliefsDoc, "beliefs".data),
   (extractPhilosophiesDoc, "philosophies".data),
   (extractFailuresDoc, "failures".data),
   (extractKeyDecisionsDoc, "key_decisions".data),
   (extractMentorsDoc, "mentors".data),
   (extractHabitsDoc, "habits".data),
   (extractApproachesDoc, "approaches".data),
   (extractAnecdotesDoc, "anecdotes".data),
   (extractEmotionalDoc, "emotional_intelligence".data)]

/-- The `extraction_type` tags of the ten concurrent tasks. -/
def facetNames : List Str := (fanOutTasks []).map Prod.snd

/-- The fan-in loop (lines 140-145): await the tasks in completion order,
inserting each `(extraction_type, data)` into the results; an awaited task
whose retries were exhausted re-raises, aborting the loop. -/
def collectResults {J : Type} (outcome : Str → Except PyErr J) :
    List Str → List (Str × J) → Except PyErr (List (Str × J))
  | [], acc => .ok acc
  | f :: rest, acc =>
    match outcome f with
    | .error e => .error e
    | .ok d => collectResults outcome rest (acc ++ [(f, d)])

/-- Model of `extract_all_components`, given each task's eventual outcome and the
order in which `asyncio.as_completed` yields the tasks (any permutation of
the task list). -/
def extract_all_components {J : Type} (outcome : Str → Except PyErr J)
    (order : List Str) : Except PyErr (List (Str × J)) :=
  collectResults outcome order []

/-- The tail of `extract_founder_data` after the fan-out (lines 978-1044):
a failure of `asyncio.run(extract_all_components(...))` propagates through
the re-raising `except` (lines 1046-1050); only on success is the `Founder`
aggregate assembled from the collected results.  The per-facet record
mapping of the assembly is abstracted as `assemble`. -/
def founderStage {J F : Type} (assemble : List (Str × J) → F)
    (fanned : Except PyErr (List (Str × J))) : Except PyErr F :=
  match fanned with
  | .error e => .error e
  | .ok results => .ok (assemble results)

/-!
The per-chunk timeline phase of the orchestrator (`extract_founder_data`,
lines 963-974): the timeline extractor runs once per chunk inside a
`try`; a failing chunk is logged and contributes nothing; the collected
events are then merged.
-/

/-- The event-gathering loop (lines 963-971): concatenate the events of the
non-failing chunks in order; a chunk whose extraction raised is skipped. -/
def gatherTimeline : List (Except PyErr (List TimelineEvent)) → List TimelineEvent
  | [] => []
  | .ok evs :: rest => evs ++ gatherTimeline rest
  | .error _ :: rest => gatherTimeline rest

/-- The whole timeline phase (lines 963-974), from each chunk's extraction
outcome to the merged timeline. -/
def timelinePhase (outcomes : List (Except PyErr (List TimelineEvent))) :
    List TimelineEvent :=
  mergeTimeline (gatherTimeline outcomes)

/-!
The basic-info prompt (`extract_basic_info`, lines 147-163): an f-string
embedding `transcript[:2000]` between two fixed blocks of text.
-/

/-- The f-string text before the transcript slice (lines 149-161). -/
def basicInfoPromptHead : Str :=
  ("You must respond with ONLY a JSON object, no markdown formatting, no explanations, no code blocks.\n    The JSON must exactly match this schema:\n    \x7b\n      \"name\": \"string\",\n      \"domain\": [\"string\", ...],\n      \"financial_background\": \"string or null\",\n      \"era\": \x7b\n        \"start\": \"YYYY\",\n        \"end\": \"YYYY or null\"\n      \x7d\n    \x7d\n\n    Analyze this transcript and extract basic information about the founder:\n    ").data

/-- The f-string text after the transcript slice (lines 162-163). -/
def basicInfoPromptTail : Str := "...\n    ".data

/-- The prompt built by `extract_basic_info` (lines 149-163): the fixed head,
then `transcript[:2000]`, then the fixed tail. -/
def extract_basic_info_prompt (transcript : Str) : Str :=
  basicInfoPromptHead ++ transcript.take 2000 ++ basicInfoPromptTail

/-!
Theorems.
-/

/-- Claim C1.  The nine-facet fan-out of step 4 does NOT build its prompts from
the transcript: `extract_all_components` hands each task the extractor
function's docstring as the prompt, so the task list is a constant function
of the transcript — any two transcripts, in particular the distinct
transcripts `"A"` and `"B"`, produce identical requests for every facet.
This refutes the claim that each concurrent completion call is built from
the full transcript (and that distinct transcripts yield distinct
requests); the code contradicts the evident intent, since its `transcript`
parameter is never read and the real prompt builders of the facet
extractors are never invoked by the fan-out. -/
theorem fanout_prompts_ignore_transcript :
    (∀ t₁ t₂ : Str, fanOutTasks t₁ = fanOutTasks t₂) ∧
    (fanOutTasks "A".data = fanOutTasks "B".data ∧ "A".data ≠ "B".data) ∧
    ((fanOutTasks "A".data).map Prod.fst =
      [extractTraitsDoc, extractBeliefsDoc, extractPhilosophiesDoc,
       extractFailuresDoc, extractKeyDecisionsDoc, extractMentorsDoc,
       extractHabitsDoc, extractApproachesDoc, extractAnecdotesDoc,
       extractEmotionalDoc]) :=
  ⟨fun _ _ => rfl, ⟨rfl, by decide⟩, rfl⟩

/-- Claim C9.  The basic-info prompt reads only a 2000-character prefix of its
input chunk: two inputs agreeing on their first 2000 characters yield the
same prompt, and hence the same completion-request content. -/
theorem basic_info_prompt_reads_prefix_only (t₁ t₂ : Str)
    (h : t₁.take 2000 = t₂.take 2000) :
    extract_basic_info_prompt t₁ = extract_basic_info_prompt t₂ ∧
    requestContent (extract_basic_info_prompt t₁) =
      requestContent (extract_basic_info_prompt t₂) := by
  unfold extract_basic_info_prompt requestContent
  rw [h]
  exact ⟨rfl, rfl⟩

/-- Claim C9 witness: two concrete inputs of length 2001 that differ in their last
character but share their first 2000 characters get the identical prompt. -/
theorem basic_info_prompt_reads_prefix_only_witness :
    (List.replicate 2001 'a').take 2000 =
      (List.replicate 2000 'a' ++ ['b']).take 2000 ∧
    extract_basic_info_prompt (List.replicate 2001 'a') =
      extract_basic_info_prompt (List.replicate 2000 'a' ++ ['b']) := by
  have h : (List.replicate 2001 'a').take 2000 =
      (List.replicate 2000 'a' ++ ['b']).take 2000 := by
    rw [List.take_replicate,
      List.take_append_of_le_length (by rw [List.length_replicate]),
      List.take_replicate]
    norm_num
  exact ⟨h, (basic_info_prompt_reads_prefix_only _ _ h).1⟩

/-- The event-gathering loop skips an erroring chunk outright. -/
theorem gatherTimeline_skip_error (pre post : List (Except PyErr (List TimelineEvent)))
    (e : PyErr) :
    gatherTimeline (pre ++ .error e :: post) = gatherTimeline (pre ++ post) := by
  induction pre with
  | nil => rfl
  | cons o rest ih =>
    cases o with
    | ok evs => simp [gatherTimeline, ih]
    | error e2 => simp [gatherTimeline, ih]

/-- The gathered events are exactly the concatenation of the non-failing
outcomes. -/
theorem gatherTimeline_eq_join_successes
    (outcomes : List (Except PyErr (List TimelineEvent))) :
    gatherTimeline outcomes = (outcomes.filterMap Except.toOption).flatten := by
  induction outcomes with
  | nil => rfl
  | cons o rest ih =>
    cases o with
    | ok evs => simp [gatherTimeline, Except.toOption, ih]
    | error e => simp [gatherTimeline, Except.toOption, ih]

/-- Claim C8.  Per-chunk timeline failures are swallowed: a chunk on which the
timeline extraction raised contributes zero events and the run continues —
the phase's merged timeline equals the merge of the non-failing chunks'
events only, and (being a total function of the outcomes) the phase never
propagates a per-chunk error. -/
theorem timeline_chunk_failures_swallowed :
    (∀ pre post (e : PyErr),
      timelinePhase (pre ++ .error e :: post) = timelinePhase (pre ++ post)) ∧
    (∀ outcomes, timelinePhase outcomes =
      mergeTimeline ((outcomes.filterMap Except.toOption).flatten)) :=
  ⟨fun pre post e => by
      unfold timelinePhase; rw [gatherTimeline_skip_error],
   fun outcomes => by
      unfold timelinePhase; rw [gatherTimeline_eq_join_successes]⟩

/-- If the completion order contains a facet whose task failed while every
other facet in it succeeded, the fan-in loop re-raises that failure. -/
theorem collectResults_error_of_mem {J : Type} (outcome : Str → Except PyErr J)
    (f : Str) (e : PyErr) (hf : outcome f = .error e) :
    ∀ (order : List Str) (acc : List (Str × J)), f ∈ order →
      (∀ g ∈ order, g ≠ f → (outcome g).isOk = true) →
      collectResults outcome order acc = .error e := by
  intro order
  induction order with
  | nil => intro acc hmem; exact absurd hmem (List.not_mem_nil f)
  | cons g rest ih =>
    intro acc hmem hok
    by_cases hgf : g = f
    · subst hgf; simp [collectResults, hf]
    · have hgok : (outcome g).isOk = true :=
        hok g (List.mem_cons_self g rest) hgf
      rcases hg : outcome g with e2 | d
      · rw [hg] at hgok; simp [Except.isOk, Except.toBool] at hgok
      · have hfr : f ∈ rest := by
          rcases List.mem_cons.mp hmem with h1 | h2
          · exact absurd h1.symm hgf
          · exact h2
        simp only [collectResults, hg]
        exact ih (acc ++ [(g, d)]) hfr
          (fun g2 hg2 hne => hok g2 (List.mem_cons_of_mem g hg2) hne)

/-- Claim C7.  The ten-way concurrent fan-out is not failure-isolated per facet:
whatever the completion order of the tasks, if a single facet's task fails
with its exhausted-retry error while every other facet succeeds,
`extract_all_components` re-raises exactly that error, and the orchestrator
tail therefore never assembles a `Founder` aggregate from the completed
sibling results. -/
theorem fanout_single_failure_aborts {J F : Type} (outcome : Str → Except PyErr J)
    (order : List Str) (f : Str) (e : PyErr) (assemble : List (Str × J) → F)
    (hperm : order.Perm facetNames) (hfmem : f ∈ facetNames)
    (hf : outcome f = .error e)
    (hrest : ∀ g ∈ facetNames, g ≠ f → (outcome g).isOk = true) :
    extract_all_components outcome order = .error e ∧
    founderStage assemble (extract_all_components outcome order) = .error e := by
  have hmain : extract_all_components outcome order = .error e := by
    unfold extract_all_components
    exact collectResults_error_of_mem outcome f e hf order []
      (hperm.mem_iff.mpr hfmem)
      (fun g hg hne => hrest g (hperm.mem_iff.mp hg) hne)
  exact ⟨hmain, by rw [hmain]; rfl⟩

/-- Claim C7 witness: with the `beliefs` task failing on an empty response and
every other facet succeeding, the fan-in over the task-list order aborts
with that very error and no aggregate is assembled. -/
theorem fanout_single_failure_aborts_witness :
    extract_all_components
      (fun g => if g = "beliefs".data then .error .emptyResponse else .ok ())
      facetNames = .error .emptyResponse ∧
    founderStage (fun _ => ())
      (extract_all_components
        (fun g => if g = "beliefs".data then .error .emptyResponse else .ok ())
        facetNames) = .error .emptyResponse :=
  fanout_single_failure_aborts
    (fun g => if g = "beliefs".data then .error .emptyResponse else .ok ())
    facetNames "beliefs".data .emptyResponse (fun _ => ())
    (List.Perm.refl facetNames) (by decide) (by decide) (by decide)

/-- Claim C5.  The completion client's retry behavior: if every one of the three
attempts fails (each listed failure kind — transport failure, blank body,
JSON-decode failure — consumes exactly one attempt), the client raises
after exactly 3 attempts, not more and not fewer, with the last attempt's
error; a success on any attempt returns the decoded JSON immediately. -/
theorem retry_exhaustion_spec {J : Type} (decode : Str → Option J)
    (call : Nat → Except Str Str) :
    ((∀ i, i < 3 → (attemptOutcome decode call i).isOk = false) →
      extract_with_retries decode call 3 = (3, some (attemptOutcome decode call 2))) ∧
    (∀ v : J, attemptOutcome decode call 0 = .ok v →
      extract_with_retries decode call 3 = (1, some (.ok v))) ∧
    (∀ v : J, (attemptOutcome decode call 0).isOk = false →
      attemptOutcome decode call 1 = .ok v →
      extract_with_retries decode call 3 = (2, some (.ok v))) ∧
    (∀ v : J, (attemptOutcome decode call 0).isOk = false →
      (attemptOutcome decode call 1).isOk = false →
      attemptOutcome decode call 2 = .ok v →
      extract_with_retries decode call 3 = (3, some (.ok v))) ∧
    (∀ i m, call i = .error m →
      attemptOutcome decode call i = .error (.transport m)) ∧
    (∀ i raw, call i = .ok raw → pyStrip raw = [] →
      attemptOutcome decode call i = .error .emptyResponse) ∧
    (∀ i raw, call i = .ok raw → pyStrip raw ≠ [] →
      decode (sanitizedContent (pyStrip raw)) = none →
      attemptOutcome decode call i = .error (.jsonDecode (sanitizedContent (pyStrip raw)))) := by
  refine ⟨?_, ?_, ?_, ?_, ?_, ?_, ?_⟩
  · intro hall
    rcases h0 : attemptOutcome decode call 0 with e0 | v0
    · rcases h1 : attemptOutcome decode call 1 with e1 | v1
      · rcases h2 : attemptOutcome decode call 2 with e2 | v2
        · simp [extract_with_retries, retryLoop, h0, h1, h2]
        · have := hall 2 (by norm_num); rw [h2] at this
          simp [Except.isOk, Except.toBool] at this
      · have := hall 1 (by norm_num); rw [h1] at this
        simp [Except.isOk, Except.toBool] at this
    · have := hall 0 (by norm_num); rw [h0] at this
      simp [Except.isOk, Except.toBool] at this
  · intro v h0
    simp [extract_with_retries, retryLoop, h0]
  · intro v h0 h1
    rcases he0 : attemptOutcome decode call 0 with e0 | v0
    · simp [extract_with_retries, retryLoop, he0, h1]
    · rw [he0] at h0; simp [Except.isOk, Except.toBool] at h0
  · intro v h0 h1 h2
    rcases he0 : attemptOutcome decode call 0 with e0 | v0
    · rcases he1 : attemptOutcome decode call 1 with e1 | v1
      · simp [extract_with_retries, retryLoop, he0, he1, h2]
      · rw [he1] at h1; simp [Except.isOk, Except.toBool] at h1
    · rw [he0] at h0; simp [Except.isOk, Except.toBool] at h0
  · intro i m h
    simp [attemptOutcome, h]
  · intro i raw h hstrip
    simp [attemptOutcome, h, hstrip]
  · intro i raw h hne hdec
    simp [attemptOutcome, h, hne, hdec]

/-- Claim C5 witness: a client whose service call fails on every attempt with a
distinct transport error per attempt consumes exactly 3 attempts and
surfaces the third attempt's error; and each failure kind is exercised on
concrete attempts. -/
theorem retry_exhaustion_spec_witness :
    extract_with_retries (J := Unit) (fun _ => none)
      (fun i => if i = 2 then .error "late".data else .error "early".data) 3 =
      (3, some (.error (.transport "late".data))) ∧
    extract_with_retries (J := Unit) (fun _ => none) (fun _ => .ok "  ".data) 3 =
      (3, some (.error .emptyResponse)) ∧
    extract_with_retries (J := Unit) (fun _ => none) (fun _ => .ok "nope".data) 3 =
      (3, some (.error (.jsonDecode "nope".data))) := by
  refine ⟨?_, ?_, ?_⟩
  · have h := (retry_exhaustion_spec (J := Unit) (fun _ => none)
      (fun i => if i = 2 then .error "late".data else .error "early".data)).1
      (by intro i hi; interval_cases i <;> rfl)
    rw [h]; rfl
  · have h := (retry_exhaustion_spec (J := Unit) (fun _ => none)
      (fun _ => .ok "  ".data)).1 (by intro i _; rfl)
    rw [h]; rfl
  · have h := (retry_exhaustion_spec (J := Unit) (fun _ => none)
      (fun _ => .ok "nope".data)).1 (by intro i _; rfl)
    rw [h]; rfl

/-- Claim C10.  `TimelineEvent` is immutable with tuple-valued sequence fields:
construction converts `list` arguments of the three sequence fields to
tuples; two events are equal exactly when all ten fields are equal; the
hash is defined (no `TypeError`) on every constructed event, in particular
on every event the timeline extractor produces, and is consistent with
equality — so set-based de-duplication over entire-record equality is
well-defined for the merge step. -/
theorem timeline_event_eq_and_hash :
    (∀ d et desc ec tcs aps ets src conf dt,
      (mkTimelineEvent d et desc ec (.list tcs) (.list aps) (.list ets)
        src conf dt).trait_changes = .tuple tcs ∧
      (mkTimelineEvent d et desc ec (.list tcs) (.list aps) (.list ets)
        src conf dt).alternative_paths = .tuple aps ∧
      (mkTimelineEvent d et desc ec (.list tcs) (.list aps) (.list ets)
        src conf dt).external_triggers = .tuple ets) ∧
    (∀ d et desc ec tc ap etr src conf dt,
      ((mkTimelineEvent d et desc ec tc ap etr src conf dt).pyHashKey).isSome = true) ∧
    (∀ e₁ e₂ : TimelineEvent, e₁ = e₂ ↔
      (e₁.date = e₂.date ∧ e₁.event_type = e₂.event_type ∧
       e₁.description = e₂.description ∧
       e₁.emotional_context = e₂.emotional_context ∧
       e₁.trait_changes = e₂.trait_changes ∧
       e₁.alternative_paths = e₂.alternative_paths ∧
       e₁.external_triggers = e₂.external_triggers ∧
       e₁.source = e₂.source ∧ e₁.confidence = e₂.confidence ∧
       e₁.data_type = e₂.data_type)) ∧
    (∀ e₁ e₂ : TimelineEvent, e₁ = e₂ → e₁.pyHashKey = e₂.pyHashKey) ∧
    (∀ r e, parseTimelineEvent r = some e → (e.pyHashKey).isSome = true) := by
  refine ⟨?_, ?_, ?_, ?_, ?_⟩
  · intro d et desc ec tcs aps ets src conf dt
    exact ⟨rfl, rfl, rfl⟩
  · intro d et desc ec tc ap etr src conf dt
    cases tc <;> cases ap <;> cases etr <;> rfl
  · intro e₁ e₂
    constructor
    · intro h; subst h
      exact ⟨rfl, rfl, rfl, rfl, rfl, rfl, rfl, rfl, rfl, rfl⟩
    · intro h
      obtain ⟨h1, h2, h3, h4, h5, h6, h7, h8, h9, h10⟩ := h
      cases e₁; cases e₂
      simp only at h1 h2 h3 h4 h5 h6 h7 h8 h9 h10
      subst h1; subst h2; subst h3; subst h4; subst h5
      subst h6; subst h7; subst h8; subst h9; subst h10
      rfl
  · intro e₁ e₂ h; subst h; rfl
  · intro r e h
    simp only [parseTimelineEvent, Option.bind_eq_bind, Option.bind_eq_some,
      Option.some.injEq] at h
    obtain ⟨tcs, _, d, _, en, _, et, _, ds, _, sc, _, cf, _, dn, _, dt, _, he⟩ := h
    rw [← Option.some.inj he]
    rfl

/-- Claim C10 witness: the equality-implies-equal-hash conjunct and the
parsed-event conjunct, applied to a concrete event and to a concrete raw
event with every required key present. -/
theorem timeline_event_eq_and_hash_witness :
    (mkTimelineEvent "1999".data .FOUNDING "d".data none (.list [])
      (.list []) (.list []) "s".data 1 .FACTUAL).pyHashKey =
    (mkTimelineEvent "1999".data .FOUNDING "d".data none (.list [])
      (.list []) (.list []) "s".data 1 .FACTUAL).pyHashKey ∧
    ((mkTimelineEvent "1999".data .FOUNDING "d".data none (.tuple [])
      (.tuple []) (.tuple []) "s".data 1 .FACTUAL).pyHashKey).isSome = true :=
  ⟨timeline_event_eq_and_hash.2.2.2.1 _ _ rfl,
   timeline_event_eq_and_hash.2.2.2.2
     ⟨some "1999".data, some "FOUNDING".data, some "d".data, none,
      some [], some [], some [], some "s".data, some 1, some "FACTUAL".data⟩
     (mkTimelineEvent "1999".data .FOUNDING "d".data none (.tuple [])
       (.tuple []) (.tuple []) "s".data 1 .FACTUAL) rfl⟩

/-- Claim C2 counterexample.  The traits extractor does NOT isolate a malformed
record: with a response array whose elements 1 and 3 are well-formed and
whose element 2 is missing the required `trait` key, `extract_traits`
raises instead of returning the two well-formed records. -/
theorem traits_malformed_record_aborts_facet :
    parseTrait
      ⟨some "bold".data, some "TRAIT".data, some "INNATE".data, some "d1".data,
        some [], some [], some [], some "s1".data, some 1,
        some "FACTUAL".data⟩ =
      some ⟨"bold".data, .TRAIT, .INNATE, "d1".data, [], [], [], "s1".data, 1,
        .FACTUAL⟩ ∧
    parseTrait
      ⟨none, some "SKILL".data, some "DEVELOPED".data, some "d2".data,
        some [], some [], some [], some "s2".data, some 1,
        some "FACTUAL".data⟩ = none ∧
    parseTrait
      ⟨some "calm".data, some "SKILL".data, some "DEVELOPED".data, some "d3".data,
        some [], some [], some [], some "s3".data, some 1,
        some "FACTUAL".data⟩ =
      some ⟨"calm".data, .SKILL, .DEVELOPED, "d3".data, [], [], [], "s3".data, 1,
        .FACTUAL⟩ ∧
    extract_traits
      (some
        [⟨some "bold".data, some "TRAIT".data, some "INNATE".data, some "d1".data,
           some [], some [], some [], some "s1".data, some 1,
           some "FACTUAL".data⟩,
         ⟨none, some "SKILL".data, some "DEVELOPED".data, some "d2".data,
           some [], some [], some [], some "s2".data, some 1,
           some "FACTUAL".data⟩,
         ⟨some "calm".data, some "SKILL".data, some "DEVELOPED".data, some "d3".data,
           some [], some [], some [], some "s3".data, some 1,
           some "FACTUAL".data⟩]) = .error .recordFailed :=
  ⟨rfl, rfl, rfl, rfl⟩

/-- The beliefs loop returns exactly the records of the elements whose
mapping succeeds, skipping each failing element. -/
theorem beliefsLoop_eq_filterMap (rs : List RawBelief) :
    beliefsLoop rs = rs.filterMap parseBelief := by
  induction rs with
  | nil => rfl
  | cons r rest ih =>
    rcases h : parseBelief r with _ | b <;>
      simp [beliefsLoop, h, List.filterMap_cons, ih]

/-- Claim C2 amended.  Per-record fault isolation holds for the facet extractors
that wrap each element in its own `try` — e.g. the beliefs extractor, which
returns exactly the records of the well-formed elements and never raises
(with element 2 of 3 malformed it returns exactly the records of elements 1
and 3) — but NOT for the traits extractor, whose loop has no per-record
boundary: any malformed element aborts the whole traits facet with an
error. -/
theorem per_record_isolation_except_traits :
    (∀ res : Option (List RawBelief),
      extract_beliefs res = (res.getD []).filterMap parseBelief) ∧
    (∀ (r₁ r₂ r₃ : RawBelief) (b₁ b₃ : Belief),
      parseBelief r₁ = some b₁ → parseBelief r₂ = none →
      parseBelief r₃ = some b₃ →
      extract_beliefs (some [r₁, r₂, r₃]) = [b₁, b₃]) ∧
    (∀ (arr : List RawTrait) (r : RawTrait), r ∈ arr → parseTrait r = none →
      (extract_traits (some arr)).isOk = false) := by
  refine ⟨?_, ?_, ?_⟩
  · intro res
    exact beliefsLoop_eq_filterMap (res.getD [])
  · intro r₁ r₂ r₃ b₁ b₃ h₁ h₂ h₃
    show beliefsLoop [r₁, r₂, r₃] = [b₁, b₃]
    simp [beliefsLoop, h₁, h₂, h₃]
  · intro arr
    induction arr with
    | nil => intro r hr; exact absurd hr (List.not_mem_nil r)
    | cons a rest ih =>
      intro r hr hnone
      show (traitsLoop (a :: rest)).isOk = false
      rcases List.mem_cons.mp hr with h1 | h2
      · subst h1
        simp [traitsLoop, hnone, Except.isOk, Except.toBool]
      · rcases ha : parseTrait a with _ | t
        · simp [traitsLoop, ha, Except.isOk, Except.toBool]
        · have := ih r h2 hnone
          simp only [extract_traits] at this
          simp only [traitsLoop, ha]
          rcases hrest : traitsLoop rest with e | ts
          · simp [Except.isOk, Except.toBool]
          · rw [hrest] at this
            simp [Except.isOk, Except.toBool] at this

/-- Claim C2-amended witness: the isolation conjunct applied at a concrete
3-element beliefs response with element 2 malformed, and the traits-abort
conjunct at a concrete malformed element. -/
theorem per_record_isolation_except_traits_witness :
    extract_beliefs
      (some
        [⟨some "b1".data, none, some "s1".data, some 1, some "FACTUAL".data⟩,
         ⟨none, none, some "s2".data, some 1, some "FACTUAL".data⟩,
         ⟨some "b3".data, none, some "s3".data, some 1, some "INFERRED".data⟩]) =
      [⟨"b1".data, none, "s1".data, 1, .FACTUAL⟩,
       ⟨"b3".data, none, "s3".data, 1, .INFERRED⟩] ∧
    (extract_traits
      (some [⟨none, some "SKILL".data, some "DEVELOPED".data, some "d2".data,
        some [], some [], some [], some "s2".data, some 1,
        some "FACTUAL".data⟩])).isOk = false :=
  ⟨per_record_isolation_except_traits.2.1 _ _ _ _ _ rfl rfl rfl,
   per_record_isolation_except_traits.2.2 _
     ⟨none, some "SKILL".data, some "DEVELOPED".data, some "d2".data,
       some [], some [], some [], some "s2".data, some 1,
       some "FACTUAL".data⟩ (List.mem_singleton.mpr rfl) rfl⟩

/-!
Chunker lemmas: the emitted chunks are the `"\n\n"`-joins of the underlying
paragraph groups; the groups concatenate to the paragraph list; and the
loop's running token count bounds each group.
-/

/-- A split result is never the empty list of segments. -/
theorem splitParasChars_ne_nil (cs : Str) : splitParasChars cs ≠ [] := by
  induction cs using splitParasChars.induct with
  | case1 => simp [splitParasChars]
  | case2 rest ih => simp [splitParasChars]
  | case3 c rest h ih =>
    rw [splitParasChars]
    · cases hs : splitParasChars rest <;> simp [consHead]
    · exact h

/-- Unfolding `List.intercalate` over a cons with a non-empty tail. -/
theorem intercalate_cons_of_ne_nil (sep a : Str) (rest : List Str) (h : rest ≠ []) :
    List.intercalate sep (a :: rest) = a ++ sep ++ List.intercalate sep rest := by
  rcases rest with _ | ⟨b, t⟩
  · exact absurd rfl h
  · simp [List.intercalate, List.intersperse, List.append_assoc]

/-- Joining the `"\n\n"`-split of a string restores the string. -/
theorem intercalate_splitParas (cs : Str) :
    List.intercalate "\n\n".data (splitParasChars cs) = cs := by
  induction cs using splitParasChars.induct with
  | case1 => simp [splitParasChars, List.intercalate]
  | case2 rest ih =>
    rw [splitParasChars, intercalate_cons_of_ne_nil _ _ _ (splitParasChars_ne_nil rest), ih]
    rfl
  | case3 c rest h ih =>
    rw [splitParasChars]
    · rcases hs : splitParasChars rest with _ | ⟨seg, segs⟩
      · exact absurd hs (splitParasChars_ne_nil rest)
      · rw [hs] at ih
        rcases segs with _ | ⟨s2, t⟩
        · simp only [consHead]
          simp only [List.intercalate, List.intersperse] at ih ⊢
          simp at ih ⊢
          rw [ih]
        · rw [intercalate_cons_of_ne_nil _ _ _ (by simp)] at ih
          rw [consHead, intercalate_cons_of_ne_nil _ _ _ (by simp), ← ih]
          simp
    · exact h

/-- The join `List.intercalate` distributes over an append of non-empty segment
lists. -/
theorem intercalate_append_of_ne_nil (sep : Str) (l₁ l₂ : List Str)
    (h₁ : l₁ ≠ []) (h₂ : l₂ ≠ []) :
    List.intercalate sep (l₁ ++ l₂) =
      List.intercalate sep l₁ ++ sep ++ List.intercalate sep l₂ := by
  induction l₁ with
  | nil => exact absurd rfl h₁
  | cons a t ih =>
    rcases t with _ | ⟨b, t2⟩
    · rw [List.singleton_append, intercalate_cons_of_ne_nil _ _ _ h₂]
      simp [List.intercalate]
    · rw [List.cons_append,
        intercalate_cons_of_ne_nil sep a ((b :: t2) ++ l₂) (by simp),
        ih (by simp),
        intercalate_cons_of_ne_nil sep a (b :: t2) (by simp)]
      simp [List.append_assoc]

/-- The flattening of a non-empty list of non-empty lists is non-empty. -/
theorem flatten_ne_nil (gs : List (List Str)) (h : gs ≠ [])
    (hall : ∀ g ∈ gs, g ≠ []) : gs.flatten ≠ [] := by
  rcases gs with _ | ⟨g, t⟩
  · exact absurd rfl h
  · have hg := hall g (List.mem_cons_self g t)
    rcases g with _ | ⟨c, cs⟩
    · exact absurd rfl hg
    · simp

/-- Joining per-group joins equals joining the concatenated groups, for
non-empty groups. -/
theorem intercalate_map_intercalate (sep : Str) (gs : List (List Str))
    (hall : ∀ g ∈ gs, g ≠ []) :
    List.intercalate sep (gs.map (List.intercalate sep)) =
      List.intercalate sep gs.flatten := by
  induction gs with
  | nil => rfl
  | cons g t ih =>
    rcases t with _ | ⟨g2, t2⟩
    · simp [List.intercalate]
    · have hg : g ≠ [] := hall g (List.mem_cons_self g _)
      have ht : ∀ x ∈ g2 :: t2, x ≠ [] :=
        fun x hx => hall x (List.mem_cons_of_mem g hx)
      have htf : (g2 :: t2).flatten ≠ [] := flatten_ne_nil _ (by simp) ht
      rw [List.map_cons, intercalate_cons_of_ne_nil sep _ _ (by simp), ih ht,
        show (g :: g2 :: t2).flatten = g ++ (g2 :: t2).flatten from rfl,
        intercalate_append_of_ne_nil sep g (g2 :: t2).flatten hg htf]

/-- Each emitted chunk is the `"\n\n"`-join of the corresponding paragraph
group of the loop. -/
theorem chunkTranscriptAux_eq_map (ct : Str → Nat) (mt : Nat) :
    ∀ (ps cur : List Str) (tok : Nat),
      chunkTranscriptAux ct mt ps cur tok =
        (chunkGroupsAux ct mt ps cur tok).map (List.intercalate "\n\n".data) := by
  intro ps
  induction ps with
  | nil =>
    intro cur tok
    by_cases h : cur = [] <;> simp [chunkTranscriptAux, chunkGroupsAux, h]
  | cons p t ih =>
    intro cur tok
    by_cases h : tok + ct p > mt <;>
      simp [chunkTranscriptAux, chunkGroupsAux, h, ih]

/-- The paragraph groups concatenate to the pending chunk followed by the
remaining paragraphs: no paragraph is dropped, duplicated or split. -/
theorem chunkGroupsAux_flatten (ct : Str → Nat) (mt : Nat) :
    ∀ (ps cur : List Str) (tok : Nat),
      (chunkGroupsAux ct mt ps cur tok).flatten = cur ++ ps := by
  intro ps
  induction ps with
  | nil =>
    intro cur tok
    by_cases h : cur = [] <;> simp [chunkGroupsAux, h]
  | cons p t ih =>
    intro cur tok
    by_cases h : tok + ct p > mt <;> simp [chunkGroupsAux, h, ih]

/-- From a non-empty pending chunk the loop always emits something. -/
theorem chunkGroupsAux_ne_nil (ct : Str → Nat) (mt : Nat) :
    ∀ (ps cur : List Str) (tok : Nat), cur ≠ [] →
      chunkGroupsAux ct mt ps cur tok ≠ [] := by
  intro ps
  induction ps with
  | nil => intro cur tok h; simp [chunkGroupsAux, h]
  | cons p t ih =>
    intro cur tok h
    by_cases hc : tok + ct p > mt
    · simp [chunkGroupsAux, hc]
    · simp only [chunkGroupsAux, hc, if_neg]
      exact ih (cur ++ [p]) (tok + ct p) (by simp)

/-- From a non-empty pending chunk every emitted group is non-empty. -/
theorem chunkGroupsAux_mem_ne_nil (ct : Str → Nat) (mt : Nat) :
    ∀ (ps cur : List Str) (tok : Nat), cur ≠ [] →
      ∀ g ∈ chunkGroupsAux ct mt ps cur tok, g ≠ [] := by
  intro ps
  induction ps with
  | nil =>
    intro cur tok h g hg
    rw [chunkGroupsAux, if_neg h] at hg
    rw [List.mem_singleton.mp hg]
    exact h
  | cons p t ih =>
    intro cur tok h g hg
    by_cases hc : tok + ct p > mt
    · rw [chunkGroupsAux, if_pos hc] at hg
      rcases List.mem_cons.mp hg with h1 | h2
      · rw [h1]; exact h
      · exact ih [p] (ct p) (by simp) g h2
    · rw [chunkGroupsAux, if_neg hc] at hg
      exact ih (cur ++ [p]) (tok + ct p) (by simp) g hg

/-- The loop invariant: the running count is the sum of the pending chunk's
paragraph counts and is within budget unless the chunk is one oversized
paragraph; hence every emitted group is within budget or is a single
paragraph. -/
theorem chunkGroupsAux_budget (ct : Str → Nat) (mt : Nat) :
    ∀ (ps cur : List Str) (tok : Nat), tok = (cur.map ct).sum →
      (tok ≤ mt ∨ ∃ p, cur = [p]) →
      ∀ g ∈ chunkGroupsAux ct mt ps cur tok,
        ((g.map ct).sum ≤ mt ∨ ∃ p, g = [p]) := by
  intro ps
  induction ps with
  | nil =>
    intro cur tok htok hinv g hg
    by_cases h : cur = []
    · rw [chunkGroupsAux, if_pos h] at hg
      exact absurd hg (List.not_mem_nil g)
    · rw [chunkGroupsAux, if_neg h] at hg
      rw [List.mem_singleton.mp hg]
      rcases hinv with h1 | h2
      · exact Or.inl (htok ▸ h1)
      · exact Or.inr h2
  | cons p t ih =>
    intro cur tok htok hinv g hg
    by_cases hc : tok + ct p > mt
    · rw [chunkGroupsAux, if_pos hc] at hg
      rcases List.mem_cons.mp hg with h1 | h2
      · rw [h1]
        rcases hinv with hl | hr
        · exact Or.inl (htok ▸ hl)
        · exact Or.inr hr
      · exact ih [p] (ct p) (by simp) (Or.inr ⟨p, rfl⟩) g h2
    · rw [chunkGroupsAux, if_neg hc] at hg
      refine ih (cur ++ [p]) (tok + ct p) ?_ ?_ g hg
      · simp [htok]
      · exact Or.inl (Nat.le_of_not_lt hc)

/-- Claim C4 counterexample.  Joining the chunks does not always reproduce the
transcript: when the very first paragraph's token count alone exceeds the
budget, the close branch fires over the still-empty pending chunk and emits
a spurious empty first chunk, so the join gains a leading `"\n\n"`.
Concretely, for the single-paragraph transcript `"X"` under a budget of `0`
(any tokenizer counting `"X"` positive behaves alike). -/
theorem chunk_join_misses_transcript :
    chunk_transcript (fun s => s.length) "X".data 0 = [[], "X".data] ∧
    List.intercalate "\n\n".data (chunk_transcript (fun s => s.length) "X".data 0) =
      '\n' :: '\n' :: "X".data ∧
    List.intercalate "\n\n".data (chunk_transcript (fun s => s.length) "X".data 0) ≠
      "X".data := by
  refine ⟨by decide, by decide, by decide⟩

/-- Claim C4 amended.  No paragraph is ever split across two chunks (each chunk is
the `"\n\n"`-join of a group of whole paragraphs, and the groups concatenate
to the full paragraph list), and joining the chunks with `"\n\n"` reproduces
the transcript exactly whenever the first paragraph's token count is within
the budget; when it exceeds the budget, the spurious leading empty chunk
makes the join `"\n\n" ++ transcript` instead. -/
theorem chunk_coverage_spec :
    (∀ (ct : Str → Nat) (mt : Nat) (t : Str), ∃ groups : List (List Str),
      chunk_transcript ct t mt = groups.map (List.intercalate "\n\n".data) ∧
      groups.flatten = splitParasChars t) ∧
    (∀ (ct : Str → Nat) (mt : Nat) (t : Str), ct (firstPara t) ≤ mt →
      List.intercalate "\n\n".data (chunk_transcript ct t mt) = t) ∧
    (∀ (ct : Str → Nat) (mt : Nat) (t : Str), mt < ct (firstPara t) →
      List.intercalate "\n\n".data (chunk_transcript ct t mt) =
        '\n' :: '\n' :: t) := by
  refine ⟨?_, ?_, ?_⟩
  · intro ct mt t
    refine ⟨chunkGroups ct t mt, chunkTranscriptAux_eq_map ct mt _ [] 0, ?_⟩
    rw [chunkGroups, chunkGroupsAux_flatten]
    rfl
  · intro ct mt t hle
    obtain ⟨p, ps, hsplit⟩ : ∃ p ps, splitParasChars t = p :: ps := by
      rcases hs : splitParasChars t with _ | ⟨p, ps⟩
      · exact absurd hs (splitParasChars_ne_nil t)
      · exact ⟨p, ps, rfl⟩
    have hp : firstPara t = p := by rw [firstPara, hsplit]; rfl
    rw [hp] at hle
    have hnotgt : ¬(0 + ct p > mt) := by omega
    have h1 : chunk_transcript ct t mt = chunkTranscriptAux ct mt ps [p] (0 + ct p) := by
      rw [chunk_transcript, hsplit, chunkTranscriptAux, if_neg hnotgt,
        List.nil_append]
    rw [h1, chunkTranscriptAux_eq_map,
      intercalate_map_intercalate _ _
        (chunkGroupsAux_mem_ne_nil ct mt ps [p] _ (by simp)),
      chunkGroupsAux_flatten, List.singleton_append, ← hsplit,
      intercalate_splitParas]
  · intro ct mt t hgt
    obtain ⟨p, ps, hsplit⟩ : ∃ p ps, splitParasChars t = p :: ps := by
      rcases hs : splitParasChars t with _ | ⟨p, ps⟩
      · exact absurd hs (splitParasChars_ne_nil t)
      · exact ⟨p, ps, rfl⟩
    have hp : firstPara t = p := by rw [firstPara, hsplit]; rfl
    rw [hp] at hgt
    have hgt0 : 0 + ct p > mt := by omega
    have h1 : chunk_transcript ct t mt =
        List.intercalate "\n\n".data [] :: chunkTranscriptAux ct mt ps [p] (ct p) := by
      rw [chunk_transcript, hsplit, chunkTranscriptAux, if_pos hgt0]
    have hrest : chunkTranscriptAux ct mt ps [p] (ct p) ≠ [] := by
      rw [chunkTranscriptAux_eq_map]
      simp only [ne_eq, List.map_eq_nil_iff]
      exact chunkGroupsAux_ne_nil ct mt ps [p] (ct p) (by simp)
    rw [h1, intercalate_cons_of_ne_nil _ _ _ hrest, chunkTranscriptAux_eq_map,
      intercalate_map_intercalate _ _
        (chunkGroupsAux_mem_ne_nil ct mt ps [p] _ (by simp)),
      chunkGroupsAux_flatten, List.singleton_append, ← hsplit,
      intercalate_splitParas]
    rfl

/-- Claim C4-amended witness: at a two-paragraph transcript within budget the join
reproduces the transcript; at the oversized single paragraph `"X"` under
budget `0` it yields `"\n\n" ++ "X"`. -/
theorem chunk_coverage_spec_witness :
    List.intercalate "\n\n".data
      (chunk_transcript (fun s => s.length) "a\n\nb".data 10) = "a\n\nb".data ∧
    List.intercalate "\n\n".data
      (chunk_transcript (fun s => s.length) "X".data 0) = '\n' :: '\n' :: "X".data :=
  ⟨chunk_coverage_spec.2.1 (fun s => s.length) 10 "a\n\nb".data (by decide),
   chunk_coverage_spec.2.2 (fun s => s.length) 0 "X".data (by decide)⟩

/-- Claim C6 counterexample.  The token count of an emitted chunk's *text* can
exceed the budget even for a multi-paragraph chunk, because the loop sums
the paragraphs' own counts and never counts the restored `"\n\n"`
separators: with counts `1` and `1` under budget `2` the two paragraphs
`"a"`, `"b"` stay in one chunk whose emitted text `"a\n\nb"` counts `4`. -/
theorem chunk_text_tokens_exceed_budget :
    chunkGroups (fun s => s.length) "a\n\nb".data 2 = [["a".data, "b".data]] ∧
    chunk_transcript (fun s => s.length) "a\n\nb".data 2 = ["a\n\nb".data] ∧
    ("a\n\nb".data).length = 4 ∧ ¬(("a\n\nb".data).length ≤ 2) := by
  refine ⟨by decide, by decide, by decide, by decide⟩

/-- Claim C6 amended.  Every chunk is the join of a paragraph group whose *sum of
per-paragraph token counts* is at most the budget, except possibly a chunk
consisting of one single over-budget paragraph; the bound is on that sum,
not on the token count of the emitted joined text. -/
theorem chunk_budget_spec :
    (∀ (ct : Str → Nat) (mt : Nat) (t : Str),
      chunk_transcript ct t mt =
        (chunkGroups ct t mt).map (List.intercalate "\n\n".data)) ∧
    (∀ (ct : Str → Nat) (mt : Nat) (t : Str),
      ∀ g ∈ chunkGroups ct t mt, ((g.map ct).sum ≤ mt ∨ ∃ p, g = [p])) := by
  constructor
  · intro ct mt t
    exact chunkTranscriptAux_eq_map ct mt _ [] 0
  · intro ct mt t g hg
    exact chunkGroupsAux_budget ct mt _ [] 0 rfl (Or.inl (Nat.zero_le mt)) g hg

/-- Claim C6-amended witness: the budget bound applied to the concrete group
produced for `"a\n\nb"` under budget `10`. -/
theorem chunk_budget_spec_witness :
    (((["a".data, "b".data] : List Str).map (fun s : Str => s.length)).sum ≤ 10 ∨
      ∃ p, (["a".data, "b".data] : List Str) = [p]) :=
  chunk_budget_spec.2 (fun s => s.length) 10 "a\n\nb".data
    ["a".data, "b".data] (by decide)

/-!
The lexicographic comparison `charListLe` is a total preorder that is
antisymmetric, which is what the merge-step sort needs.
-/

/-- Transitivity of `charListLe`. -/
theorem charListLe_trans :
    ∀ a b c : Str, charListLe a b = true → charListLe b c = true →
      charListLe a c = true := by
  intro a
  induction a with
  | nil => intro b c _ _; rfl
  | cons x xs ih =>
    intro b c hab hbc
    rcases b with _ | ⟨y, ys⟩
    · simp [charListLe] at hab
    · rcases c with _ | ⟨z, zs⟩
      · simp [charListLe] at hbc
      · simp only [charListLe] at hab hbc ⊢
        by_cases hxy : x < y
        · by_cases hyz : y < z
          · simp [lt_trans hxy hyz]
          · by_cases hyz2 : y = z
            · subst hyz2; simp [hxy]
            · simp [hyz, hyz2] at hbc
        · by_cases hxy2 : x = y
          · subst hxy2
            by_cases hyz : x < z
            · simp [hyz]
            · by_cases hyz2 : x = z
              · subst hyz2
                simp only [hxy, if_false, if_pos rfl] at hab hbc ⊢
                exact ih ys zs hab hbc
              · simp [hyz, hyz2] at hbc
          · simp [hxy, hxy2] at hab

/-- Totality of `charListLe`. -/
theorem charListLe_total :
    ∀ a b : Str, charListLe a b = true ∨ charListLe b a = true := by
  intro a
  induction a with
  | nil => intro b; exact Or.inl rfl
  | cons x xs ih =>
    intro b
    rcases b with _ | ⟨y, ys⟩
    · exact Or.inr rfl
    · rcases lt_trichotomy x y with h | h | h
      · exact Or.inl (by simp [charListLe, h])
      · subst h
        rcases ih ys with h2 | h2
        · exact Or.inl (by simp [charListLe, h2])
        · exact Or.inr (by simp [charListLe, h2])
      · exact Or.inr (by simp [charListLe, h])

/-- Antisymmetry of `charListLe`. -/
theorem charListLe_antisymm :
    ∀ a b : Str, charListLe a b = true → charListLe b a = true → a = b := by
  intro a
  induction a with
  | nil =>
    intro b _ hba
    rcases b with _ | ⟨y, ys⟩
    · rfl
    · simp [charListLe] at hba
  | cons x xs ih =>
    intro b hab hba
    rcases b with _ | ⟨y, ys⟩
    · simp [charListLe] at hab
    · simp only [charListLe] at hab hba
      by_cases hxy : x < y
      · have : ¬(y < x) := lt_asymm hxy
        simp [this, (ne_of_lt hxy).symm] at hba
      · by_cases hxy2 : x = y
        · subst hxy2
          simp only [hxy, if_false, if_pos rfl] at hab hba
          rw [ih ys hab hba]
        · simp [hxy, hxy2] at hab

instance : IsTrans TimelineEvent dateLe :=
  ⟨fun a b c => charListLe_trans a.date b.date c.date⟩

instance : IsTotal TimelineEvent dateLe :=
  ⟨fun a b => charListLe_total a.date b.date⟩

/-- A list union collapses onto a superset. -/
theorem union_eq_self_of_subset {α : Type} [DecidableEq α]
    (l acc : List α) (h : ∀ x ∈ l, x ∈ acc) : l ∪ acc = acc := by
  induction l with
  | nil => rfl
  | cons a t ih =>
    rw [List.cons_union, ih (fun x hx => h x (List.mem_cons_of_mem a hx)),
      List.insert_of_mem (h a (List.mem_cons_self a t))]

/-- Claim C3 counterexample.  The merger's output sequence is NOT insensitive to
the input order when two distinct events share the same date string: the two
presentations of the same two-element set of `"1999"`-dated events merge to
different sequences.  (CPython leaves `set` iteration order unspecified —
with string hash randomization it varies across processes — so the code
guarantees no particular relative order of equal-date distinct events; this
model exhibits that order-dependence.) -/
theorem merge_timeline_order_sensitive :
    ([sampleEvent "1999".data "B".data, sampleEvent "1999".data "A".data].Perm
      [sampleEvent "1999".data "A".data, sampleEvent "1999".data "B".data]) ∧
    mergeTimeline [sampleEvent "1999".data "A".data, sampleEvent "1999".data "B".data] =
      [sampleEvent "1999".data "A".data, sampleEvent "1999".data "B".data] ∧
    mergeTimeline [sampleEvent "1999".data "B".data, sampleEvent "1999".data "A".data] =
      [sampleEvent "1999".data "B".data, sampleEvent "1999".data "A".data] ∧
    mergeTimeline [sampleEvent "1999".data "A".data, sampleEvent "1999".data "B".data] ≠
      mergeTimeline [sampleEvent "1999".data "B".data, sampleEvent "1999".data "A".data] := by
  refine ⟨by decide, by decide, by decide, by decide⟩

/-- Claim C3 amended.  The merger's output consists of exactly the distinct events
of the concatenated per-chunk events (full-record equality), without
duplicates, sorted ascending by plain lexicographic comparison of the
`date` string; re-merging the output and duplicating the input preserve the
output up to permutation of equal-date distinct events (and hence as a
multiset), and yield the identical sequence whenever no two distinct input
events share a date string; the sequence is likewise insensitive to the
input order under that same distinct-dates condition (in general the
relative order of equal-date distinct events inherits CPython's unspecified
`set` iteration order and is not guaranteed); and events dated `"1999"`,
`"1999-06"`, `"2000"` sort to exactly that order.  Every conjunct holds for
every admissible duplicate-free enumeration of the `set`, not just the one
this model fixes. -/
theorem merge_timeline_spec :
    (∀ l, List.Sorted dateLe (mergeTimeline l)) ∧
    (∀ l, (mergeTimeline l).Nodup) ∧
    (∀ l (x : TimelineEvent), x ∈ mergeTimeline l ↔ x ∈ l) ∧
    (∀ l, (mergeTimeline (mergeTimeline l)).Perm (mergeTimeline l)) ∧
    (∀ l, (mergeTimeline (l ++ l)).Perm (mergeTimeline l)) ∧
    (∀ l, (∀ a ∈ l, ∀ b ∈ l, a.date = b.date → a = b) →
      mergeTimeline (mergeTimeline l) = mergeTimeline l) ∧
    (∀ l, (∀ a ∈ l, ∀ b ∈ l, a.date = b.date → a = b) →
      mergeTimeline (l ++ l) = mergeTimeline l) ∧
    (∀ l l', l.Perm l' → (∀ a ∈ l, ∀ b ∈ l, a.date = b.date → a = b) →
      mergeTimeline l = mergeTimeline l') ∧
    (mergeTimeline
        [sampleEvent "2000".data "c".data, sampleEvent "1999-06".data "b".data,
         sampleEvent "1999".data "a".data] =
      [sampleEvent "1999".data "a".data, sampleEvent "1999-06".data "b".data,
       sampleEvent "2000".data "c".data]) := by
  have hsorted : ∀ l, List.Sorted dateLe (mergeTimeline l) :=
    fun l => List.sorted_insertionSort dateLe l.dedup
  have hnodup : ∀ l, (mergeTimeline l).Nodup :=
    fun l => ((List.perm_insertionSort dateLe l.dedup).symm).nodup (List.nodup_dedup l)
  have hmem : ∀ l (x : TimelineEvent), x ∈ mergeTimeline l ↔ x ∈ l :=
    fun l x => ((List.perm_insertionSort dateLe l.dedup).mem_iff).trans List.mem_dedup
  have hidem : ∀ l, mergeTimeline (mergeTimeline l) = mergeTimeline l := by
    intro l
    show List.insertionSort dateLe (mergeTimeline l).dedup = mergeTimeline l
    rw [List.dedup_eq_self.mpr (hnodup l)]
    exact (hsorted l).insertionSort_eq
  have hdup : ∀ l, mergeTimeline (l ++ l) = mergeTimeline l := by
    intro l
    show List.insertionSort dateLe (l ++ l).dedup = List.insertionSort dateLe l.dedup
    rw [List.dedup_append,
      union_eq_self_of_subset l l.dedup (fun x hx => List.mem_dedup.mpr hx)]
  refine ⟨hsorted, hnodup, hmem,
    fun l => by rw [hidem l],
    fun l => by rw [hdup l],
    fun l _ => hidem l, fun l _ => hdup l, ?_, by decide⟩
  intro l l' hp hd
  have hd' : ∀ a ∈ l', ∀ b ∈ l', a.date = b.date → a = b :=
    fun a ha b hb => hd a (hp.mem_iff.mpr ha) b (hp.mem_iff.mpr hb)
  have hm : (mergeTimeline l).Perm (mergeTimeline l') :=
    (List.perm_insertionSort dateLe l.dedup).trans
      ((hp.dedup).trans (List.perm_insertionSort dateLe l'.dedup).symm)
  haveI : IsAntisymm TimelineEvent
      (fun a b => dateLe a b ∧ a.date ≠ b.date) :=
    ⟨fun a b hab hba =>
      absurd (charListLe_antisymm _ _ hab.1 hba.1) hab.2⟩
  have hstrict : ∀ (m : List TimelineEvent),
      (∀ a ∈ m, ∀ b ∈ m, a.date = b.date → a = b) →
      List.Sorted dateLe m → m.Nodup →
      List.Sorted (fun a b => dateLe a b ∧ a.date ≠ b.date) m := by
    intro m hdm hs hn
    have hpair : List.Pairwise (fun a b => dateLe a b ∧ a ≠ b) m :=
      List.Pairwise.and hs hn
    exact hpair.imp_of_mem
      (fun ha hb hr => ⟨hr.1, fun hdeq => hr.2 (hdm _ ha _ hb hdeq)⟩)
  exact List.eq_of_perm_of_sorted hm
    (hstrict (mergeTimeline l)
      (fun a ha b hb => hd a ((hmem l a).mp ha) b ((hmem l b).mp hb))
      (hsorted l) (hnodup l))
    (hstrict (mergeTimeline l')
      (fun a ha b hb => hd' a ((hmem l' a).mp ha) b ((hmem l' b).mp hb))
      (hsorted l') (hnodup l'))

/-- Claim C3-amended witness: the distinct-dates re-merge idempotence,
duplicate-insensitivity and order-insensitivity conjuncts applied to
concrete distinct-date inputs. -/
theorem merge_timeline_spec_witness :
    mergeTimeline (mergeTimeline
        [sampleEvent "2000".data "c".data, sampleEvent "1999".data "a".data]) =
      mergeTimeline
        [sampleEvent "2000".data "c".data, sampleEvent "1999".data "a".data] ∧
    mergeTimeline
        ([sampleEvent "2000".data "c".data, sampleEvent "1999".data "a".data] ++
         [sampleEvent "2000".data "c".data, sampleEvent "1999".data "a".data]) =
      mergeTimeline
        [sampleEvent "2000".data "c".data, sampleEvent "1999".data "a".data] ∧
    mergeTimeline [sampleEvent "2000".data "c".data, sampleEvent "1999".data "a".data] =
      mergeTimeline [sampleEvent "1999".data "a".data, sampleEvent "2000".data "c".data] :=
  ⟨merge_timeline_spec.2.2.2.2.2.1 _ (by decide),
   merge_timeline_spec.2.2.2.2.2.2.1 _ (by decide),
   merge_timeline_spec.2.2.2.2.2.2.2.1 _ _ (by decide) (by decide)⟩

end Podcaster
